import Mathlib

/-
Verification of the module-resolution and compile-session front end
(crates/resolve/src/lib.rs and crates/sulk/src/main.rs).

Shallow embedding notes:
- `SourceFile` identity (`Lrc::ptr_eq`) is modelled by a numeric file id.
  The physical file resolver (import maps, import paths, canonicalization,
  parent-relative lookup) is external to the core; it is abstracted as a
  map from path strings to file ids (`Env.resolvePath`), and `load_stdin`
  as `Env.stdinFile`.
- The external parser is abstracted by `Env.parseOk` / `Env.parseYulOk`
  (whether parsing succeeds) and `Env.items` (the parsed top-level items
  of each file).  Diagnostic message texts produced by external components
  (`ResolveError::to_string`, parser errors) are modelled as fixed strings.
- `Result<()>` (with `ErrorGuaranteed`) is `Except Unit Unit`; the `?`
  operator is explicit matching on the error case.
- Recursion in `Resolver::resolve_file` is made total with a fuel
  parameter; termination of the original is the theorem that enough fuel
  (more than the number of unvisited files) always yields a result.
-/

/-- Severity of an emitted diagnostic: `DiagCtxt::err` records an ordinary
error, `DiagCtxt::fatal` raises a fatal (unwinding) diagnostic. -/
inductive Level where
  | error
  | fatal
deriving DecidableEq, Repr

/-- An emitted diagnostic: severity, message, and the span it is anchored
at (`none` when emitted without `.span(..)`). Spans are abstract numbers. -/
structure Diag where
  level : Level
  msg : String
  span : Option Nat
deriving DecidableEq, Repr

/-- An identifier token with its span (`Ident` in `sulk_ast`). -/
structure Ident where
  name : String
  span : Nat
deriving DecidableEq, Repr

/-- `ast::PragmaTokens`. For `Custom`, the `IdentOrStrLit` operands are
modelled by their extracted string values (`IdentOrStrLit::value`). -/
inductive PragmaTokens where
  | version (name : Ident) (ver : String)
  | custom (name : String) (value : Option String)
  | verbatim
deriving DecidableEq, Repr

/-- The top-level item kinds `Resolver::resolve_file` inspects
(`ast::ItemKind`): pragma directives, import directives (carrying
the import path string literal), and everything else. -/
inductive ItemKind where
  | pragmaDir (p : PragmaTokens)
  | importDir (path : String)
  | other
deriving DecidableEq, Repr

/-- A parsed top-level item with its span. -/
structure Item where
  kind : ItemKind
  span : Nat
deriving DecidableEq, Repr

/-- Events recorded at the entry level of `parse_and_resolve`: a call to
`FileResolver::load_stdin`, or a call to `FileResolver::resolve_file` for
an entry path. -/
inductive Event where
  | stdin
  | entry (path : String)
deriving DecidableEq, Repr

/-- The environment: the external collaborators of the core (file resolver,
parser) abstracted at their interface boundary.  File ids below `numFiles`
are the ids the resolver can ever produce. -/
structure Env where
  numFiles : Nat
  items : Nat → List Item
  parseOk : Nat → Bool
  parseYulOk : Nat → Bool
  resolvePath : String → Option Nat
  stdinFile : Option Nat

/-- The observable state of one invocation: the resolver's visited list
(`Resolver.files`, in discovery order), the diagnostics recorded in the
`DiagCtxt`, the files on which a parse was attempted, the entry-level
resolver events, and how many times `print_error_count` ran. -/
structure RState where
  files : List Nat
  diags : List Diag
  parses : List Nat
  events : List Event
  reports : Nat
deriving DecidableEq, Repr

/-- Fresh session state. -/
def initRState : RState := ⟨[], [], [], [], 0⟩

/-- Number of error-level diagnostics recorded (`DiagCtxt` error count). -/
def errCount (s : RState) : Nat :=
  s.diags.countP (fun d => d.level == Level.error)

/-- Diagnostic for a failed import resolution, anchored at the directive's
span (`self.dcx().err(e.to_string()).span(item.span).emit()`). -/
def importErrDiag (p : String) (span : Nat) : Diag :=
  ⟨Level.error, "could not resolve import " ++ p, some span⟩

/-- Diagnostic for a failed entry-path resolution, unanchored
(`emit_resolve_error`). -/
def entryErrDiag (p : String) : Diag :=
  ⟨Level.error, "could not resolve file " ++ p, none⟩

/-- Diagnostic for a failed `load_stdin`, unanchored. -/
def stdinErrDiag : Diag :=
  ⟨Level.error, "could not load stdin", none⟩

/-- Diagnostic emitted when `Parser::parse_file` fails (`e.emit()`). -/
def parseErrDiag (f : Nat) : Diag :=
  ⟨Level.error, "parse error in file " ++ toString f, none⟩

/-- Diagnostic emitted when `Parser::parse_yul_file_object` fails. -/
def yulParseErrDiag (f : Nat) : Diag :=
  ⟨Level.error, "yul parse error in file " ++ toString f, none⟩

/-- Diagnostic for a duplicate `--import-path` argument. -/
def dupImportPathDiag (p : String) : Diag :=
  ⟨Level.error, "import path " ++ p ++ " already specified", none⟩

/-- `Resolver::check_pragma`.  Returns the diagnostics it emits, in order.
The nested string match of the source is rendered as the equivalent
if-chain, arm for arm. -/
def check_pragma (span : Nat) (pragma : PragmaTokens) : List Diag :=
  match pragma with
  | PragmaTokens.version name _ver =>
      if name.name ≠ "solidity" then
        [⟨Level.error, "only `solidity` is supported as a version pragma", some name.span⟩]
      else []
  | PragmaTokens.custom name value =>
      if name = "abicoder" ∧ (value = some "v1" ∨ value = some "v2") then []
      else if name = "experimental" ∧ value = some "ABIEncoderV2" then []
      else if name = "experimental" ∧ value = some "SMTChecker" then []
      else if name = "experimental" ∧ value = some "solidity" then
        [⟨Level.error, "experimental solidity features are not supported", none⟩]
      else [⟨Level.error, "unknown pragma", some span⟩]
  | PragmaTokens.verbatim => [⟨Level.error, "unknown pragma", some span⟩]

/-- The `for item in &source_unit.items` loop of `Resolver::resolve_file`.
`rec` is the recursive `self.resolve_file(yul, file)` call (fuel already
decremented by the caller).  An import that fails to resolve emits an
anchored error and propagates `Err` (the `?`); an `Err` from the recursive
call also propagates (`?`). -/
def resolveItems (env : Env) (rec : Nat → RState → Option (RState × Except Unit Unit)) :
    List Item → RState → Option (RState × Except Unit Unit)
  | [], s => some (s, Except.ok ())
  | it :: rest, s =>
      match it.kind with
      | ItemKind.pragmaDir p =>
          resolveItems env rec rest { s with diags := s.diags ++ check_pragma it.span p }
      | ItemKind.importDir path =>
          match env.resolvePath path with
          | none =>
              some ({ s with diags := s.diags ++ [importErrDiag path it.span] }, Except.error ())
          | some id =>
              match rec id s with
              | none => none
              | some (s1, Except.error e) => some (s1, Except.error e)
              | some (s1, Except.ok _) => resolveItems env rec rest s1
      | ItemKind.other => resolveItems env rec rest s

/-- `Resolver::resolve_file`.  Skips files already visited (by identity),
records the file as visited before anything else, then parses: in yul mode
an object form with no import following, otherwise a full source unit whose
items are scanned for pragmas and imports.  `none` means the fuel ran out
(never happens with enough fuel; see `resolve_file_total`). -/
def resolve_file (env : Env) (yul : Bool) : Nat → Nat → RState → Option (RState × Except Unit Unit)
  | 0, _, _ => none
  | fuel + 1, f, s =>
      if f ∈ s.files then some (s, Except.ok ())
      else
        let s1 : RState := { s with files := s.files ++ [f] }
        if yul then
          let s2 : RState := { s1 with parses := s1.parses ++ [f] }
          if env.parseYulOk f then some (s2, Except.ok ())
          else some ({ s2 with diags := s2.diags ++ [yulParseErrDiag f] }, Except.error ())
        else
          let s2 : RState := { s1 with parses := s1.parses ++ [f] }
          if env.parseOk f then
            resolveItems env (fun id t => resolve_file env yul fuel id t) (env.items f) s2
          else some ({ s2 with diags := s2.diags ++ [parseErrDiag f] }, Except.error ())

/-- The `for path in paths` loop of `Resolver::parse_and_resolve`.  The
canonicalize / strip-prefix adjustment feeds the external resolver and is
absorbed into `Env.resolvePath`.  Failures emit and propagate `Err` (`?`). -/
def resolveEntries (env : Env) (yul : Bool) (fuel : Nat) :
    List String → RState → Option (RState × Except Unit Unit)
  | [], s => some (s, Except.ok ())
  | p :: rest, s =>
      let s0 : RState := { s with events := s.events ++ [Event.entry p] }
      match env.resolvePath p with
      | none => some ({ s0 with diags := s0.diags ++ [entryErrDiag p] }, Except.error ())
      | some f =>
          match resolve_file env yul fuel f s0 with
          | none => none
          | some (s1, Except.error e) => some (s1, Except.error e)
          | some (s1, Except.ok _) => resolveEntries env yul fuel rest s1

/-- `Resolver::parse_and_resolve`: stdin first (when requested), then the
entry paths in order. -/
def parse_and_resolve (env : Env) (yul stdinFlag : Bool) (fuel : Nat)
    (paths : List String) (s : RState) : Option (RState × Except Unit Unit) :=
  if stdinFlag then
    let s0 : RState := { s with events := s.events ++ [Event.stdin] }
    match env.stdinFile with
    | none => some ({ s0 with diags := s0.diags ++ [stdinErrDiag] }, Except.error ())
    | some f =>
        match resolve_file env yul fuel f s0 with
        | none => none
        | some (s1, Except.error e) => some (s1, Except.error e)
        | some (s1, Except.ok _) => resolveEntries env yul fuel paths s1
  else resolveEntries env yul fuel paths s

/-- The run configuration handed to `_run_compiler` (`cli::Args`):
language mode, import maps, import paths, and input paths. -/
structure Args where
  yulMode : Bool
  import_map : List (String × String)
  import_path : List String
  input : List String
deriving DecidableEq, Repr

/-- The duplicate check of the `for path in &args.import_path` loop:
returns the first path for which `add_import_path` reports "already
present", if any. -/
def firstDupImportPath : List String → List String → Option String
  | _, [] => none
  | seen, p :: rest => if p ∈ seen then some p else firstDupImportPath (seen ++ [p]) rest

/-- The tail of `_run_compiler` after the yul guard: configure the file
resolver (import maps carry no diagnostics and are absorbed into `env`;
a duplicate import path is an error return), split the `-` sentinel out of
the inputs, run `parse_and_resolve` (`?`), then `sess.dcx.has_errors()?`. -/
def compileAfterGuard (env : Env) (fuel : Nat) (args : Args) (s : RState) :
    Option (RState × Except Unit Unit) :=
  match firstDupImportPath [] args.import_path with
  | some p => some ({ s with diags := s.diags ++ [dupImportPathDiag p] }, Except.error ())
  | none =>
      let stdinFlag := args.input.any (fun a => a = "-")
      let paths := args.input.filter (fun a => a ≠ "-")
      match parse_and_resolve env args.yulMode stdinFlag fuel paths s with
      | none => none
      | some (s1, Except.error e) => some (s1, Except.error e)
      | some (s1, Except.ok _) =>
          if errCount s1 = 0 then some (s1, Except.ok ())
          else some (s1, Except.error ())

/-- `_run_compiler`: the yul guard (`is_yul && !is_testing()` is an
ordinary `err(..).emit()` plus early `Err` return), then the rest of the
compile body.  `inTest` models the `__SULK_IN_INTEGRATION_TEST`
environment marker. -/
def _run_compiler (env : Env) (inTest : Bool) (fuel : Nat) (args : Args)
    (s : RState) : Option (RState × Except Unit Unit) :=
  if args.yulMode && !inTest then
    some ({ s with diags := s.diags ++ [⟨Level.error, "Yul is not supported yet", none⟩] },
      Except.error ())
  else compileAfterGuard env fuel args s

/-- How the compile body handed to `run_compiler_with` can finish: a normal
return of a value (which may itself be an `Err`), or an unwind from a fatal
diagnostic / panic. -/
inductive BodyOut (R : Type) where
  | ret (r : R)
  | unwound
deriving DecidableEq, Repr

/-- `Compiler::finish_diagnostics`: `print_error_count` runs, recorded by
bumping `reports`. -/
def finish_diagnostics (s : RState) : RState := { s with reports := s.reports + 1 }

/-- `run_compiler_with`: the compile body runs with the
`defer(|| compiler.finish_diagnostics())` guard in scope, so finalization
runs after the body on every exit path, including an unwind, before the
result (or the continuing unwind) leaves the scope. -/
def run_compiler_with {R : Type} (f : RState → RState × BodyOut R) (s : RState) :
    RState × BodyOut R :=
  let p := f s
  (finish_diagnostics p.1, p.2)


/-- Invariant of the resolver state: the visited list has no duplicates,
every parsed file is a visited file, and no file is parsed twice. -/
def StInv (s : RState) : Prop :=
  s.files.Nodup ∧ (∀ g ∈ s.parses, g ∈ s.files) ∧ s.parses.Nodup

/-- Well-formedness of the external resolver: all produced ids are in
range. -/
def WF (env : Env) : Prop :=
  (∀ p id, env.resolvePath p = some id → id < env.numFiles) ∧
  (∀ id, env.stdinFile = some id → id < env.numFiles)

/-- Number of in-range file ids not yet visited; the termination measure of
the traversal. -/
def unvisited (env : Env) (fs : List Nat) : Nat :=
  ((Finset.range env.numFiles).filter (fun i => i ∉ fs)).card

/-- Everything that only ever grows (or is preserved) from one resolver
state to a later one. -/
def Grows (s t : RState) : Prop :=
  s.files <+: t.files ∧ s.diags <+: t.diags ∧ t.events = s.events ∧
  s.parses <+: t.parses ∧ (StInv s → StInv t)

theorem grows_refl (s : RState) : Grows s s :=
  ⟨List.prefix_rfl, List.prefix_rfl, rfl, List.prefix_rfl, fun h => h⟩

theorem grows_trans {s t u : RState} (h1 : Grows s t) (h2 : Grows t u) : Grows s u :=
  ⟨h1.1.trans h2.1, h1.2.1.trans h2.2.1, h2.2.2.1.trans h1.2.2.1,
   h1.2.2.2.1.trans h2.2.2.2.1, fun h => h2.2.2.2.2 (h1.2.2.2.2 h)⟩

theorem errCount_le_of_grows {s t : RState} (h : Grows s t) : errCount s ≤ errCount t := by
  obtain ⟨l, hl⟩ := h.2.1
  simp [errCount, ← hl, List.countP_append]

theorem unvisited_le_of_grows (env : Env) {s t : RState} (h : Grows s t) :
    unvisited env t.files ≤ unvisited env s.files := by
  apply Finset.card_le_card
  intro i hi
  simp only [Finset.mem_filter, Finset.mem_range] at hi ⊢
  exact ⟨hi.1, fun hmem => hi.2 (h.1.subset hmem)⟩

theorem unvisited_push (env : Env) {fs : List Nat} {f : Nat}
    (hf : f < env.numFiles) (hnf : f ∉ fs) :
    unvisited env (fs ++ [f]) + 1 = unvisited env fs := by
  have hset : (Finset.range env.numFiles).filter (fun i => i ∉ fs ++ [f]) =
      ((Finset.range env.numFiles).filter (fun i => i ∉ fs)).erase f := by
    ext i
    simp only [Finset.mem_filter, Finset.mem_erase, Finset.mem_range, List.mem_append,
      List.mem_singleton]
    constructor
    · rintro ⟨hir, hni⟩
      push_neg at hni
      exact ⟨hni.2, hir, hni.1⟩
    · rintro ⟨hne, hir, hni⟩
      exact ⟨hir, by push_neg; exact ⟨hni, hne⟩⟩
  have hmem : f ∈ (Finset.range env.numFiles).filter (fun i => i ∉ fs) := by
    simp [Finset.mem_filter, Finset.mem_range, hf, hnf]
  unfold unvisited
  rw [hset, Finset.card_erase_of_mem hmem]
  have : 0 < ((Finset.range env.numFiles).filter (fun i => i ∉ fs)).card :=
    Finset.card_pos.mpr ⟨f, hmem⟩
  omega

/-- A single transition of the traversal: the state only grows, and an
error result means at least one new error diagnostic was recorded. -/
def StepOK (s t : RState) (r : Except Unit Unit) : Prop :=
  Grows s t ∧ (r = Except.error () → errCount s < errCount t)

theorem grows_push (s : RState) (f : Nat) (hnf : f ∉ s.files) :
    Grows s { s with files := s.files ++ [f], parses := s.parses ++ [f] } := by
  refine ⟨⟨[f], rfl⟩, List.prefix_rfl, rfl, ⟨[f], rfl⟩, ?_⟩
  rintro ⟨hnd, hsub, hpnd⟩
  refine ⟨?_, ?_, ?_⟩
  · simpa [List.nodup_append] using ⟨hnd, fun h => hnf h⟩
  · intro g hg
    rcases List.mem_append.mp hg with hg | hg
    · exact List.mem_append.mpr (Or.inl (hsub g hg))
    · exact List.mem_append.mpr (Or.inr hg)
  · have hnp : f ∉ s.parses := fun h => hnf (hsub f h)
    simpa [List.nodup_append] using ⟨hpnd, fun h => hnp h⟩

theorem grows_diags (s : RState) (ds : List Diag) :
    Grows s { s with diags := s.diags ++ ds } :=
  ⟨List.prefix_rfl, ⟨ds, rfl⟩, rfl, List.prefix_rfl, fun h => h⟩

theorem errCount_mk (fs : List Nat) (d1 d2 : List Diag) (ps : List Nat)
    (es : List Event) (n : Nat) :
    errCount ⟨fs, d1 ++ d2, ps, es, n⟩ =
      errCount ⟨fs, d1, ps, es, n⟩ + d2.countP (fun d => d.level == Level.error) := by
  simp [errCount, List.countP_append]

/-- `resolveItems` only grows the state; errors come with a recorded error
diagnostic — parameterized over the behavior of the recursive call. -/
theorem resolveItems_basic (env : Env)
    (rec : Nat → RState → Option (RState × Except Unit Unit))
    (hrec : ∀ id t t' r, rec id t = some (t', r) → StepOK t t' r) :
    ∀ items s s' r, resolveItems env rec items s = some (s', r) → StepOK s s' r := by
  intro items
  induction items with
  | nil =>
      intro s s' r h
      rw [resolveItems] at h
      cases h
      exact ⟨grows_refl s, by intro hc; simp at hc⟩
  | cons it rest ih =>
      intro s s' r h
      rw [resolveItems] at h
      split at h
      · -- pragma directive
        rename_i p _
        have hstep := ih _ _ _ h
        refine ⟨grows_trans (grows_diags s _) hstep.1, ?_⟩
        intro hr
        have h1 := hstep.2 hr
        have h2 := errCount_le_of_grows (grows_diags s (check_pragma it.span p))
        omega
      · -- import directive
        rename_i path _
        split at h
        · -- resolution failed: emit anchored error, return Err
          cases h
          refine ⟨grows_diags s [importErrDiag path it.span], ?_⟩
          intro _
          obtain ⟨fs, ds, ps, es, n⟩ := s
          rw [errCount_mk]
          simp [importErrDiag]
        · -- resolution succeeded: recursive call, then `?`
          split at h
          · exact absurd h (by simp)
          · rename_i s1 e hcall
            cases e
            cases h
            exact hrec _ _ _ _ hcall
          · rename_i s1 u hcall
            have hstep := hrec _ _ _ _ hcall
            have hrest := ih _ _ _ h
            refine ⟨grows_trans hstep.1 hrest.1, ?_⟩
            intro hr
            have h1 := hrest.2 hr
            have h2 := errCount_le_of_grows hstep.1
            omega
      · -- other item kinds are inert
        exact ih _ _ _ h

/-- `resolve_file` only grows the state; an error result means a new error
diagnostic was recorded. -/
theorem resolve_file_basic (env : Env) (yul : Bool) :
    ∀ fuel f s s' r, resolve_file env yul fuel f s = some (s', r) → StepOK s s' r := by
  intro fuel
  induction fuel with
  | zero => intro f s s' r h; rw [resolve_file] at h; cases h
  | succ fuel ih =>
      intro f s s' r h
      simp only [resolve_file] at h
      by_cases hmem : f ∈ s.files
      · rw [if_pos hmem] at h
        cases h
        exact ⟨grows_refl s, by intro hc; simp at hc⟩
      · rw [if_neg hmem] at h
        have hpush : Grows s { s with files := s.files ++ [f], parses := s.parses ++ [f] } :=
          grows_push s f hmem
        by_cases hyul : yul = true
        · rw [if_pos hyul] at h
          by_cases hok : env.parseYulOk f = true
          · rw [if_pos hok] at h
            cases h
            exact ⟨hpush, by intro hc; simp at hc⟩
          · rw [if_neg hok] at h
            cases h
            refine ⟨grows_trans hpush (grows_diags _ [yulParseErrDiag f]), ?_⟩
            intro _
            obtain ⟨fs, ds, ps, es, n⟩ := s
            simp only [errCount, List.countP_append, yulParseErrDiag, List.countP_cons,
              List.countP_nil]
            simp
        · rw [if_neg hyul] at h
          by_cases hok : env.parseOk f = true
          · rw [if_pos hok] at h
            have hstep := resolveItems_basic env _
              (fun id t t' r' hc => ih id t t' r' hc) _ _ _ _ h
            refine ⟨grows_trans hpush hstep.1, ?_⟩
            intro hr
            have h1 := hstep.2 hr
            have h2 : errCount s =
                errCount { s with files := s.files ++ [f], parses := s.parses ++ [f] } := rfl
            omega
          · rw [if_neg hok] at h
            cases h
            refine ⟨grows_trans hpush (grows_diags _ [parseErrDiag f]), ?_⟩
            intro _
            obtain ⟨fs, ds, ps, es, n⟩ := s
            simp only [errCount, List.countP_append, parseErrDiag, List.countP_cons,
              List.countP_nil]
            simp

/-- Totality of the item loop, given totality of the recursive call on
states with at most `k` unvisited files. -/
theorem resolveItems_total (env : Env) (k : Nat)
    (rec : Nat → RState → Option (RState × Except Unit Unit))
    (hrecB : ∀ id t t' r, rec id t = some (t', r) → StepOK t t' r)
    (hrecT : ∀ id t, id < env.numFiles → unvisited env t.files ≤ k → (rec id t).isSome)
    (hwf : WF env) :
    ∀ items s, unvisited env s.files ≤ k → (resolveItems env rec items s).isSome := by
  intro items
  induction items with
  | nil => intro s hs; rw [resolveItems]; simp
  | cons it rest ih =>
      intro s hs
      rw [resolveItems]
      split
      · exact ih _ hs
      · split
        · simp
        · rename_i path _ id hres
          cases hcall : rec id s with
          | none =>
              have hsome := hrecT id s (hwf.1 _ _ hres) hs
              rw [hcall] at hsome
              simp at hsome
          | some p =>
              obtain ⟨s1, r1⟩ := p
              cases r1 with
              | error e => simp
              | ok u =>
                  have hg := (hrecB _ _ _ _ hcall).1
                  have hle : unvisited env s1.files ≤ unvisited env s.files :=
                    unvisited_le_of_grows env hg
                  exact ih s1 (le_trans hle hs)
      · exact ih _ hs

/-- Termination of `resolve_file`: with more fuel than unvisited files the
traversal always produces a result — in particular a cyclic import graph
does not recurse forever. -/
theorem resolve_file_total (env : Env) (yul : Bool) (hwf : WF env) :
    ∀ fuel f s, f < env.numFiles → unvisited env s.files < fuel →
      (resolve_file env yul fuel f s).isSome := by
  intro fuel
  induction fuel with
  | zero => intro f s _ h; omega
  | succ fuel ih =>
      intro f s hf hfuel
      simp only [resolve_file]
      by_cases hmem : f ∈ s.files
      · rw [if_pos hmem]; simp
      · rw [if_neg hmem]
        have hunv : unvisited env (s.files ++ [f]) + 1 = unvisited env s.files :=
          unvisited_push env hf hmem
        by_cases hyul : yul = true
        · rw [if_pos hyul]
          by_cases hok : env.parseYulOk f = true
          · rw [if_pos hok]; simp
          · rw [if_neg hok]; simp
        · rw [if_neg hyul]
          by_cases hok : env.parseOk f = true
          · rw [if_pos hok]
            apply resolveItems_total env (fuel - 1) _
              (fun id t t' r hc => resolve_file_basic env yul fuel id t t' r hc)
              (fun id t hid hk => ih id t hid (by omega))
              hwf
            show unvisited env (s.files ++ [f]) ≤ fuel - 1
            omega
          · rw [if_neg hok]; simp

/-- Growth across the entry loop: like `Grows` but entry events may be
appended. -/
def GrowsE (s t : RState) : Prop :=
  s.files <+: t.files ∧ s.diags <+: t.diags ∧ s.events <+: t.events ∧
  s.parses <+: t.parses ∧ (StInv s → StInv t)

theorem growsE_refl (s : RState) : GrowsE s s :=
  ⟨List.prefix_rfl, List.prefix_rfl, List.prefix_rfl, List.prefix_rfl, fun h => h⟩

theorem growsE_trans {s t u : RState} (h1 : GrowsE s t) (h2 : GrowsE t u) : GrowsE s u :=
  ⟨h1.1.trans h2.1, h1.2.1.trans h2.2.1, h1.2.2.1.trans h2.2.2.1,
   h1.2.2.2.1.trans h2.2.2.2.1, fun h => h2.2.2.2.2 (h1.2.2.2.2 h)⟩

theorem Grows.growsE {s t : RState} (h : Grows s t) : GrowsE s t :=
  ⟨h.1, h.2.1, h.2.2.1 ▸ List.prefix_rfl, h.2.2.2.1, h.2.2.2.2⟩

theorem growsE_events (s : RState) (es : List Event) :
    GrowsE s { s with events := s.events ++ es } :=
  ⟨List.prefix_rfl, List.prefix_rfl, ⟨es, rfl⟩, List.prefix_rfl, fun h => h⟩

theorem errCount_le_of_growsE {s t : RState} (h : GrowsE s t) : errCount s ≤ errCount t := by
  obtain ⟨l, hl⟩ := h.2.1
  simp [errCount, ← hl, List.countP_append]

/-- The entry loop only grows the state; errors come with a recorded error
diagnostic. -/
theorem resolveEntries_basic (env : Env) (yul : Bool) (fuel : Nat) :
    ∀ paths s s' r, resolveEntries env yul fuel paths s = some (s', r) →
      GrowsE s s' ∧ (r = Except.error () → errCount s < errCount s') := by
  intro paths
  induction paths with
  | nil =>
      intro s s' r h
      rw [resolveEntries] at h
      cases h
      exact ⟨growsE_refl s, by intro hc; simp at hc⟩
  | cons p rest ih =>
      intro s s' r h
      rw [resolveEntries] at h
      have hev : GrowsE s { s with events := s.events ++ [Event.entry p] } :=
        growsE_events s [Event.entry p]
      split at h
      · -- entry resolution failed
        cases h
        refine ⟨growsE_trans hev ⟨List.prefix_rfl, ⟨[entryErrDiag p], rfl⟩, List.prefix_rfl,
          List.prefix_rfl, fun hI => hI⟩, ?_⟩
        intro _
        obtain ⟨fs, ds, ps, es, n⟩ := s
        simp only [errCount, List.countP_append, entryErrDiag, List.countP_cons, List.countP_nil]
        simp
      · rename_i f hres
        split at h
        · exact absurd h (by simp)
        · rename_i s1 e hcall
          cases e
          cases h
          have hstep := resolve_file_basic env yul fuel f _ _ _ hcall
          refine ⟨growsE_trans hev hstep.1.growsE, ?_⟩
          intro hr
          have h1 := hstep.2 hr
          have h2 : errCount s = errCount { s with events := s.events ++ [Event.entry p] } := rfl
          omega
        · rename_i s1 u hcall
          have hstep := resolve_file_basic env yul fuel f _ _ _ hcall
          have hrest := ih _ _ _ h
          refine ⟨growsE_trans (growsE_trans hev hstep.1.growsE) hrest.1, ?_⟩
          intro hr
          have h1 := hrest.2 hr
          have h2 := errCount_le_of_grows hstep.1
          have h3 : errCount s = errCount { s with events := s.events ++ [Event.entry p] } := rfl
          omega

/-- `parse_and_resolve` only grows the state; errors come with a recorded
error diagnostic. -/
theorem parse_and_resolve_basic (env : Env) (yul stdinFlag : Bool) (fuel : Nat)
    (paths : List String) (s s' : RState) (r : Except Unit Unit)
    (h : parse_and_resolve env yul stdinFlag fuel paths s = some (s', r)) :
    GrowsE s s' ∧ (r = Except.error () → errCount s < errCount s') := by
  simp only [parse_and_resolve] at h
  by_cases hst : stdinFlag = true
  · rw [if_pos hst] at h
    have hev : GrowsE s { s with events := s.events ++ [Event.stdin] } :=
      growsE_events s [Event.stdin]
    split at h
    · cases h
      refine ⟨growsE_trans hev ⟨List.prefix_rfl, ⟨[stdinErrDiag], rfl⟩, List.prefix_rfl,
        List.prefix_rfl, fun hI => hI⟩, ?_⟩
      intro _
      obtain ⟨fs, ds, ps, es, n⟩ := s
      simp only [errCount, List.countP_append, stdinErrDiag, List.countP_cons, List.countP_nil]
      simp
    · rename_i f hres
      split at h
      · exact absurd h (by simp)
      · rename_i s1 e hcall
        cases e
        cases h
        have hstep := resolve_file_basic env yul fuel f _ _ _ hcall
        refine ⟨growsE_trans hev hstep.1.growsE, ?_⟩
        intro hr
        have h1 := hstep.2 hr
        have h2 : errCount s = errCount { s with events := s.events ++ [Event.stdin] } := rfl
        omega
      · rename_i s1 u hcall
        have hstep := resolve_file_basic env yul fuel f _ _ _ hcall
        have hrest := resolveEntries_basic env yul fuel _ _ _ _ h
        refine ⟨growsE_trans (growsE_trans hev hstep.1.growsE) hrest.1, ?_⟩
        intro hr
        have h1 := hrest.2 hr
        have h2 := errCount_le_of_grows hstep.1
        have h3 : errCount s = errCount { s with events := s.events ++ [Event.stdin] } := rfl
        omega
  · rw [if_neg hst] at h
    exact resolveEntries_basic env yul fuel _ _ _ _ h

/-- The files directly imported by `g` (its resolvable import edges, in
textual order). -/
def succs (env : Env) (g : Nat) : List Nat :=
  (env.items g).filterMap (fun it =>
    match it.kind with
    | ItemKind.importDir p => env.resolvePath p
    | _ => none)

/-- Files reachable from `root` along resolvable import edges. -/
inductive Reach (env : Env) (root : Nat) : Nat → Prop
  | refl : Reach env root root
  | step {b c : Nat} : Reach env root b → c ∈ succs env b → Reach env root c

/-- An environment with no parse failures and no unresolvable imports
among the in-range files. -/
def NoErr (env : Env) : Prop :=
  ∀ g, g < env.numFiles →
    env.parseOk g = true ∧
    ∀ it ∈ env.items g, ∀ p, it.kind = ItemKind.importDir p → (env.resolvePath p).isSome

theorem mem_succs {env : Env} {g c : Nat} :
    c ∈ succs env g ↔
      ∃ it ∈ env.items g, ∃ p, it.kind = ItemKind.importDir p ∧ env.resolvePath p = some c := by
  simp only [succs, List.mem_filterMap]
  constructor
  · rintro ⟨it, hmem, hmatch⟩
    cases hk : it.kind with
    | pragmaDir p => rw [hk] at hmatch; simp at hmatch
    | importDir p => rw [hk] at hmatch; exact ⟨it, hmem, p, hk, hmatch⟩
    | other => rw [hk] at hmatch; simp at hmatch
  · rintro ⟨it, hmem, p, hk, hres⟩
    exact ⟨it, hmem, by rw [hk]; exact hres⟩

theorem unvisited_le_sub (env : Env) {fs gs : List Nat} (h : ∀ x ∈ fs, x ∈ gs) :
    unvisited env gs ≤ unvisited env fs := by
  apply Finset.card_le_card
  intro i hi
  simp only [Finset.mem_filter, Finset.mem_range] at hi ⊢
  exact ⟨hi.1, fun hm => hi.2 (h i hm)⟩

/-- State seen during an error-free traversal rooted at `root`: every
visited file is in range and reachable, the basic invariant holds, and the
parse list coincides with the visited list. -/
def GoodState (env : Env) (root : Nat) (s : RState) : Prop :=
  (∀ g ∈ s.files, g < env.numFiles ∧ Reach env root g) ∧ StInv s ∧ s.parses = s.files

/-- Every file visited in `t` was already visited in `s` or has all
its import edges inside `t` — how "fully expanded except the caller's
stack" is threaded through the traversal. -/
def ClosedExcept (env : Env) (s t : RState) : Prop :=
  ∀ g ∈ t.files, g ∈ s.files ∨ ∀ c ∈ succs env g, c ∈ t.files

theorem closedExcept_trans {env : Env} {s t u : RState}
    (h1 : ClosedExcept env s t) (h2 : ClosedExcept env t u)
    (hsub : ∀ x ∈ t.files, x ∈ u.files) : ClosedExcept env s u := by
  intro g hg
  rcases h2 g hg with hgt | hcl
  · rcases h1 g hgt with hgs | hcl
    · exact Or.inl hgs
    · exact Or.inr (fun c hc => hsub c (hcl c hc))
  · exact Or.inr hcl

/-- The item loop in an error-free setting: it succeeds, every import of
the processed items ends up visited, and every newly visited file is fully
expanded. -/
theorem resolveItems_noerr (env : Env) (root : Nat) (k : Nat)
    (rec : Nat → RState → Option (RState × Except Unit Unit))
    (hrec : ∀ id t, id < env.numFiles → Reach env root id → GoodState env root t →
        unvisited env t.files ≤ k →
        ∃ t', rec id t = some (t', Except.ok ()) ∧ t.files <+: t'.files ∧ id ∈ t'.files ∧
          GoodState env root t' ∧ ClosedExcept env t t') :
    ∀ items s,
      (∀ it ∈ items, ∀ p, it.kind = ItemKind.importDir p →
          ∃ id, env.resolvePath p = some id ∧ id < env.numFiles ∧ Reach env root id) →
      GoodState env root s → unvisited env s.files ≤ k →
      ∃ s', resolveItems env rec items s = some (s', Except.ok ()) ∧ s.files <+: s'.files ∧
        GoodState env root s' ∧
        (∀ it ∈ items, ∀ p, it.kind = ItemKind.importDir p →
            ∀ id, env.resolvePath p = some id → id ∈ s'.files) ∧
        ClosedExcept env s s' := by
  intro items
  induction items with
  | nil =>
      intro s _ hgood _
      refine ⟨s, by rw [resolveItems], List.prefix_rfl, hgood, by simp, ?_⟩
      intro g hg
      exact Or.inl hg
  | cons it rest ih =>
      intro s himps hgood hk
      cases hkind : it.kind with
      | pragmaDir p =>
          have hrest := ih { s with diags := s.diags ++ check_pragma it.span p }
            (fun it' hm p' hp' => himps it' (List.mem_cons_of_mem _ hm) p' hp')
            hgood hk
          obtain ⟨s', hrun, hpre, hgood', himp', hclosed⟩ := hrest
          refine ⟨s', ?_, hpre, hgood', ?_, hclosed⟩
          · simp only [resolveItems, hkind]
            exact hrun
          · intro it' hm p' hp' id hres
            rcases List.mem_cons.mp hm with heq | hm
            · rw [heq, hkind] at hp'
              cases hp'
            · exact himp' it' hm p' hp' id hres
      | importDir p =>
          obtain ⟨id, hres, hid, hreach⟩ := himps it (List.mem_cons_self it rest) p hkind
          obtain ⟨t', hcall, hpre1, hmem1, hgood1, hclosed1⟩ := hrec id s hid hreach hgood hk
          have hk1 : unvisited env t'.files ≤ k :=
            le_trans (unvisited_le_sub env (fun x hx => hpre1.subset hx)) hk
          obtain ⟨s', hrun, hpre2, hgood', himp', hclosed2⟩ := ih t'
            (fun it' hm p' hp' => himps it' (List.mem_cons_of_mem _ hm) p' hp')
            hgood1 hk1
          refine ⟨s', ?_, hpre1.trans hpre2, hgood', ?_, ?_⟩
          · simp only [resolveItems, hkind, hres, hcall]
            exact hrun
          · intro it' hm p' hp' id' hres'
            rcases List.mem_cons.mp hm with heq | hm
            · rw [heq, hkind] at hp'
              cases hp'
              rw [hres] at hres'
              cases hres'
              exact hpre2.subset hmem1
            · exact himp' it' hm p' hp' id' hres'
          · exact closedExcept_trans hclosed1 hclosed2 (fun x hx => hpre2.subset hx)
      | other =>
          have hrest := ih s
            (fun it' hm p' hp' => himps it' (List.mem_cons_of_mem _ hm) p' hp')
            hgood hk
          obtain ⟨s', hrun, hpre, hgood', himp', hclosed⟩ := hrest
          refine ⟨s', ?_, hpre, hgood', ?_, hclosed⟩
          · simp only [resolveItems, hkind]
            exact hrun
          · intro it' hm p' hp' id hres
            rcases List.mem_cons.mp hm with heq | hm
            · rw [heq, hkind] at hp'
              cases hp'
            · exact himp' it' hm p' hp' id hres

/-- Error-free traversal: `resolve_file` succeeds, visits the file, and
leaves every newly visited file fully expanded. -/
theorem resolve_file_noerr (env : Env) (root : Nat) (hwf : WF env) (hne : NoErr env) :
    ∀ fuel f s, f < env.numFiles → Reach env root f → GoodState env root s →
      unvisited env s.files < fuel →
      ∃ s', resolve_file env false fuel f s = some (s', Except.ok ()) ∧
        s.files <+: s'.files ∧ f ∈ s'.files ∧ GoodState env root s' ∧ ClosedExcept env s s' := by
  intro fuel
  induction fuel with
  | zero => intro f s _ _ _ h; omega
  | succ fuel ih =>
      intro f s hf hreach hgood hfuel
      by_cases hmem : f ∈ s.files
      · refine ⟨s, ?_, List.prefix_rfl, hmem, hgood, fun g hg => Or.inl hg⟩
        simp only [resolve_file]
        rw [if_pos hmem]
      · have hunv : unvisited env (s.files ++ [f]) + 1 = unvisited env s.files :=
          unvisited_push env hf hmem
        have hfuel1 : 1 ≤ fuel := by omega
        set s2 : RState := { s with files := s.files ++ [f], parses := s.parses ++ [f] } with hs2
        have hgood2 : GoodState env root s2 := by
          refine ⟨?_, (grows_push s f hmem).2.2.2.2 hgood.2.1, ?_⟩
          · intro g hg
            rcases List.mem_append.mp hg with hg | hg
            · exact hgood.1 g hg
            · rw [List.mem_singleton] at hg
              subst hg
              exact ⟨hf, hreach⟩
          · show s.parses ++ [f] = s.files ++ [f]
            rw [hgood.2.2]
        have hitems : ∀ it ∈ env.items f, ∀ p, it.kind = ItemKind.importDir p →
            ∃ id, env.resolvePath p = some id ∧ id < env.numFiles ∧ Reach env root id := by
          intro it hm p hp
          obtain ⟨id, hres⟩ := Option.isSome_iff_exists.mp ((hne f hf).2 it hm p hp)
          refine ⟨id, hres, hwf.1 _ _ hres, ?_⟩
          exact Reach.step hreach (mem_succs.mpr ⟨it, hm, p, hp, hres⟩)
        have hk2 : unvisited env s2.files ≤ fuel - 1 := by
          show unvisited env (s.files ++ [f]) ≤ fuel - 1
          omega
        obtain ⟨s', hrun, hpre, hgood', himp', hclosed⟩ :=
          resolveItems_noerr env root (fuel - 1)
            (fun id t => resolve_file env false fuel id t)
            (fun id t hid hr hg hk =>
              ih id t hid hr hg (by omega))
            (env.items f) s2 hitems hgood2 hk2
        refine ⟨s', ?_, ?_, hpre.subset (List.mem_append.mpr (Or.inr (List.mem_singleton.mpr rfl))),
          hgood', ?_⟩
        · simp only [resolve_file]
          rw [if_neg hmem, if_neg (by simp), if_pos (hne f hf).1]
          exact hrun
        · exact (show s.files <+: s2.files from ⟨[f], rfl⟩).trans hpre
        · intro g hg
          rcases hclosed g hg with hgs2 | hcl
          · rcases List.mem_append.mp hgs2 with hgs | hgf
            · exact Or.inl hgs
            · rw [List.mem_singleton] at hgf
              subst hgf
              refine Or.inr ?_
              intro c hc
              obtain ⟨it, hm, p, hp, hres⟩ := mem_succs.mp hc
              exact himp' it hm p hp c hres
          · exact Or.inr hcl

/-- Starting from a fresh resolver, an error-free traversal parses exactly
the files reachable from the entry file. -/
theorem resolve_file_reachable (env : Env) (hwf : WF env) (hne : NoErr env)
    (fuel f : Nat) (hf : f < env.numFiles)
    (hfuel : unvisited env ([] : List Nat) < fuel) :
    ∃ s', resolve_file env false fuel f initRState = some (s', Except.ok ()) ∧
      (∀ g, Reach env f g ↔ g ∈ s'.parses) ∧ s'.parses.Nodup := by
  have hgood : GoodState env f initRState := by
    refine ⟨?_, ⟨List.nodup_nil, ?_, List.nodup_nil⟩, rfl⟩
    · intro g hg
      cases hg
    · intro g hg
      cases hg
  obtain ⟨s', hrun, _, hmem, hgood', hclosed⟩ :=
    resolve_file_noerr env f hwf hne fuel f initRState hf Reach.refl hgood hfuel
  have hpf : s'.parses = s'.files := hgood'.2.2
  refine ⟨s', hrun, ?_, hpf ▸ hgood'.2.1.1⟩
  intro g
  rw [hpf]
  constructor
  · intro hr
    induction hr with
    | refl => exact hmem
    | step hb hc ihb =>
        rcases hclosed _ ihb with hmem0 | hcl
        · cases hmem0
        · exact hcl _ hc
  · intro hg
    exact (hgood'.1 g hg).2

/-- A two-file cyclic import graph: file 0 imports "b.sol" (file 1) and
file 1 imports "a.sol" (file 0) — the A↔B cycle of the spec, with stdin
wired to file 0. -/
def cycEnv : Env where
  numFiles := 2
  items := fun g =>
    if g = 0 then [⟨ItemKind.importDir "b.sol", 10⟩]
    else if g = 1 then [⟨ItemKind.importDir "a.sol", 20⟩]
    else []
  parseOk := fun _ => true
  parseYulOk := fun _ => true
  resolvePath := fun p =>
    if p = "a.sol" then some 0 else if p = "b.sol" then some 1 else none
  stdinFile := some 0

theorem cycEnv_wf : WF cycEnv := by
  constructor
  · intro p id h
    show id < 2
    simp only [cycEnv] at h
    split_ifs at h <;> simp_all <;> omega
  · intro id h
    show id < 2
    simp only [cycEnv] at h
    cases h
    decide

theorem cycEnv_noerr : NoErr cycEnv := by
  intro g hg
  refine ⟨rfl, ?_⟩
  intro it hit p hp
  have hg2 : g = 0 ∨ g = 1 := by
    simp only [cycEnv] at hg
    omega
  rcases hg2 with rfl | rfl
  · simp only [cycEnv] at hit
    simp at hit
    subst hit
    simp only at hp
    cases hp
    decide
  · simp only [cycEnv] at hit
    simp at hit
    subst hit
    simp only at hp
    cases hp
    decide

theorem stInv_init : StInv initRState :=
  ⟨List.nodup_nil, fun g hg => absurd hg (List.not_mem_nil g), List.nodup_nil⟩

/-- C5: for a version pragma, `check_pragma` emits exactly one error,
anchored at the name token's span, iff the name is not `solidity`; with
name `solidity` it emits nothing regardless of the version constraint,
which is not range-checked. -/
theorem c5_version_pragma (name : Ident) (ver : String) (span : Nat) :
    (check_pragma span (PragmaTokens.version name ver) = [] ↔ name.name = "solidity") ∧
    (name.name ≠ "solidity" →
      check_pragma span (PragmaTokens.version name ver) =
        [⟨Level.error, "only `solidity` is supported as a version pragma", some name.span⟩]) := by
  constructor
  · constructor
    · intro h
      by_contra hne
      simp [check_pragma, hne] at h
    · intro h
      simp [check_pragma, h]
  · intro h
    simp [check_pragma, h]

/-- Witness for C5 at a concrete non-`solidity` version pragma. -/
theorem c5_version_pragma_witness :
    check_pragma 7 (PragmaTokens.version ⟨"foo", 5⟩ "^0.8.0") =
      [⟨Level.error, "only `solidity` is supported as a version pragma", some 5⟩] :=
  (c5_version_pragma ⟨"foo", 5⟩ "^0.8.0" 7).2 (by decide)

/-- C4: the custom-pragma table — silent acceptance exactly for
`abicoder v1/v2`, `experimental ABIEncoderV2/SMTChecker`; exactly one
error for `experimental solidity`; exactly one "unknown pragma" error at
the whole directive's span for every other name/value pair, for a name
with no value, and for a verbatim pragma. -/
theorem c4_custom_pragma_table (name : String) (value : Option String) (span : Nat) :
    (check_pragma span (PragmaTokens.custom name value) = [] ↔
      (name, value) ∈ [("abicoder", some "v1"), ("abicoder", some "v2"),
        ("experimental", some "ABIEncoderV2"), ("experimental", some "SMTChecker")]) ∧
    (check_pragma span (PragmaTokens.custom "experimental" (some "solidity")) =
      [⟨Level.error, "experimental solidity features are not supported", none⟩]) ∧
    ((name, value) ∉ [("abicoder", some "v1"), ("abicoder", some "v2"),
        ("experimental", some "ABIEncoderV2"), ("experimental", some "SMTChecker"),
        ("experimental", some "solidity")] →
      check_pragma span (PragmaTokens.custom name value) =
        [⟨Level.error, "unknown pragma", some span⟩]) ∧
    (check_pragma span (PragmaTokens.custom name none) =
      [⟨Level.error, "unknown pragma", some span⟩]) ∧
    (check_pragma span PragmaTokens.verbatim =
      [⟨Level.error, "unknown pragma", some span⟩]) := by
  refine ⟨?_, by simp [check_pragma], ?_, by simp [check_pragma], by simp [check_pragma]⟩
  · constructor
    · intro h
      simp only [check_pragma] at h
      split_ifs at h with h1 h2 h3 h4
      · obtain ⟨rfl, hv⟩ := h1
        rcases hv with rfl | rfl <;> simp
      · obtain ⟨rfl, rfl⟩ := h2
        simp
      · obtain ⟨rfl, rfl⟩ := h3
        simp
    · intro h
      simp only [List.mem_cons, List.mem_singleton, Prod.mk.injEq] at h
      rcases h with ⟨rfl, rfl⟩ | ⟨rfl, rfl⟩ | ⟨rfl, rfl⟩ | ⟨rfl, rfl⟩ | h
      · simp [check_pragma]
      · simp [check_pragma]
      · simp [check_pragma]
      · simp [check_pragma]
      · simp at h
  · intro hn
    simp only [check_pragma]
    split_ifs with h1 h2 h3 h4
    · exact absurd (by rcases h1 with ⟨rfl, rfl | rfl⟩ <;> simp) hn
    · exact absurd (by obtain ⟨rfl, rfl⟩ := h2; simp) hn
    · exact absurd (by obtain ⟨rfl, rfl⟩ := h3; simp) hn
    · exact absurd (by obtain ⟨rfl, rfl⟩ := h4; simp) hn
    · rfl

/-- Witness for C4 at a concrete unrecognized custom pragma. -/
theorem c4_custom_pragma_table_witness :
    check_pragma 3 (PragmaTokens.custom "foo" (some "bar")) =
      [⟨Level.error, "unknown pragma", some 3⟩] :=
  (c4_custom_pragma_table "foo" (some "bar") 3).2.2.1 (by decide)

/-- C8: in yul mode `resolve_file` marks the file visited, attempts the
object-form parse, and (when it parses) returns success with no import
following, no pragma validation, and no diagnostics — the state changes
only by recording the file itself. -/
theorem c8_yul_object_mode (env : Env) (fuel f : Nat) (s : RState)
    (hmem : f ∉ s.files) (hok : env.parseYulOk f = true) (hfuel : 0 < fuel) :
    resolve_file env true fuel f s =
      some ({ s with files := s.files ++ [f], parses := s.parses ++ [f] }, Except.ok ()) := by
  cases fuel with
  | zero => omega
  | succ fuel =>
      simp only [resolve_file]
      rw [if_neg hmem, if_pos trivial, if_pos hok]

/-- Witness for C8: a concrete yul-mode run touching only the entry file. -/
theorem c8_yul_object_mode_witness :
    resolve_file cycEnv true 1 0 initRState =
      some ({ initRState with files := initRState.files ++ [0],
                              parses := initRState.parses ++ [0] }, Except.ok ()) :=
  c8_yul_object_mode cycEnv 1 0 initRState (List.not_mem_nil 0) rfl (by decide)

/-- C7: the finalization (`print_error_count`) scheduled via `defer` before
the compile body runs exactly once on every exit path — normal return,
error return, or unwind — for any compile body that does not itself
report. -/
theorem c7_finalization_once (R : Type) (f : RState → RState × BodyOut R) (s : RState)
    (hf : ((f s).1).reports = s.reports) :
    ((run_compiler_with f s).1).reports = s.reports + 1 ∧
    (run_compiler_with f s).2 = (f s).2 := by
  constructor
  · show (finish_diagnostics (f s).1).reports = s.reports + 1
    simp [finish_diagnostics, hf]
  · rfl

/-- Witness for C7 on an unwinding compile body. -/
theorem c7_finalization_once_witness :
    ((run_compiler_with (fun t => (t, BodyOut.unwound (R := Unit))) initRState).1).reports =
      initRState.reports + 1 :=
  (c7_finalization_once Unit (fun t => (t, BodyOut.unwound)) initRState rfl).1

/-- Args selecting yul mode with one input file. -/
def yulArgs : Args := ⟨true, [], [], ["a.sol"]⟩

/-- C9 counterexample: with yul mode selected outside the integration-test
context, the guard records an ordinary error-level diagnostic and returns
early with `Err` — it is not a fatal diagnostic and no unwind occurs
(resolution never begins: no files, parses, or events). -/
theorem c9_counterexample_err_return :
    _run_compiler cycEnv false 3 yulArgs initRState =
      some ({ initRState with
                diags := initRState.diags ++ [⟨Level.error, "Yul is not supported yet", none⟩] },
        Except.error ()) ∧
    (∀ d ∈ [(⟨Level.error, "Yul is not supported yet", none⟩ : Diag)], d.level ≠ Level.fatal) := by
  exact ⟨rfl, by decide⟩

/-- C9 (amended): the guard records an ordinary error and returns early
before any resolution; with the integration-test marker set, the guard is
skipped and the compile body proceeds. -/
theorem c9_yul_guard_amended (env : Env) (fuel : Nat) (args : Args) (s : RState)
    (hyul : args.yulMode = true) :
    (_run_compiler env false fuel args s =
      some ({ s with diags := s.diags ++ [⟨Level.error, "Yul is not supported yet", none⟩] },
        Except.error ())) ∧
    (_run_compiler env true fuel args s = compileAfterGuard env fuel args s) := by
  constructor
  · simp [_run_compiler, hyul]
  · simp [_run_compiler]

/-- Witness for the amended C9 at concrete inputs. -/
theorem c9_yul_guard_amended_witness :
    _run_compiler cycEnv false 3 yulArgs initRState =
      some ({ initRState with
                diags := initRState.diags ++ [⟨Level.error, "Yul is not supported yet", none⟩] },
        Except.error ()) :=
  (c9_yul_guard_amended cycEnv 3 yulArgs initRState rfl).1

/-- On an unvisited file, `resolve_file` appends the file to the visited
list before anything else: it precedes everything discovered afterwards. -/
theorem resolve_file_push (env : Env) (yul : Bool) :
    ∀ fuel f s s' r, f ∉ s.files → resolve_file env yul fuel f s = some (s', r) →
      s.files ++ [f] <+: s'.files := by
  intro fuel
  cases fuel with
  | zero => intro f s s' r _ h; rw [resolve_file] at h; cases h
  | succ fuel =>
      intro f s s' r hnf h
      simp only [resolve_file] at h
      rw [if_neg hnf] at h
      by_cases hyul : yul = true
      · rw [if_pos hyul] at h
        by_cases hok : env.parseYulOk f = true
        · rw [if_pos hok] at h
          cases h
          exact List.prefix_rfl
        · rw [if_neg hok] at h
          cases h
          exact List.prefix_rfl
      · rw [if_neg hyul] at h
        by_cases hok : env.parseOk f = true
        · rw [if_pos hok] at h
          exact (resolveItems_basic env _
            (fun id t t' r' hc => resolve_file_basic env yul fuel id t t' r' hc)
            _ _ _ _ h).1.1
        · rw [if_neg hok] at h
          cases h
          exact List.prefix_rfl

/-- A file already in the visited list is skipped with an immediate
success return and no state change. -/
theorem resolve_file_skip (env : Env) (yul : Bool) (fuel f : Nat) (s : RState)
    (hfuel : 0 < fuel) (hmem : f ∈ s.files) :
    resolve_file env yul fuel f s = some (s, Except.ok ()) := by
  cases fuel with
  | zero => omega
  | succ fuel =>
      simp only [resolve_file]
      rw [if_pos hmem]

/-- C1: on any import graph — cyclic ones included — `resolve_file`
terminates (with fuel exceeding the unvisited-file count the fuelled
embedding always yields a result), never parses a file twice (the parse
list stays duplicate-free), skips an already-visited file with an
immediate success and no state change, appends an unvisited file to the
visited list ahead of everything discovered while following its imports,
and, for an error-free graph explored from a fresh resolver, parses
exactly the reachable files, each exactly once. -/
theorem c1_resolve_file_cycle_safe (env : Env) (yul : Bool) (fuel f : Nat) (s : RState)
    (hwf : WF env) (hf : f < env.numFiles) (hInv : StInv s)
    (hfuel : unvisited env s.files < fuel) :
    (resolve_file env yul fuel f s).isSome ∧
    (∀ s' r, resolve_file env yul fuel f s = some (s', r) →
      s'.parses.Nodup ∧
      (f ∈ s.files → s' = s ∧ r = Except.ok ()) ∧
      (f ∉ s.files → s.files ++ [f] <+: s'.files)) ∧
    (yul = false → NoErr env → s = initRState →
      ∃ s', resolve_file env false fuel f initRState = some (s', Except.ok ()) ∧
        (∀ g, Reach env f g ↔ g ∈ s'.parses) ∧
        (∀ g, Reach env f g → s'.parses.count g = 1)) := by
  refine ⟨resolve_file_total env yul hwf fuel f s hf hfuel, ?_, ?_⟩
  · intro s' r h
    have hstep := resolve_file_basic env yul fuel f s s' r h
    refine ⟨(hstep.1.2.2.2.2 hInv).2.2, ?_, fun hnf => resolve_file_push env yul fuel f s s' r hnf h⟩
    intro hmem
    have hskip := resolve_file_skip env yul fuel f s (by omega) hmem
    rw [hskip] at h
    cases h
    exact ⟨rfl, rfl⟩
  · intro hyul hne hinit
    subst hinit
    obtain ⟨s', hrun, hiff, hnd⟩ :=
      resolve_file_reachable env hwf hne fuel f hf hfuel
    refine ⟨s', hrun, hiff, ?_⟩
    intro g hg
    have hmem : g ∈ s'.parses := (hiff g).mp hg
    have hle : s'.parses.count g ≤ 1 := List.nodup_iff_count_le_one.mp hnd g
    have hpos : 0 < s'.parses.count g := List.count_pos_iff.mpr hmem
    omega

/-- Witness for C1 on the concrete two-file cycle: the traversal
terminates and parses each of the two (mutually reachable) files exactly
once. -/
theorem c1_resolve_file_cycle_safe_witness :
    ∃ s', resolve_file cycEnv false 3 0 initRState = some (s', Except.ok ()) ∧
      (∀ g, Reach cycEnv 0 g ↔ g ∈ s'.parses) ∧
      (∀ g, Reach cycEnv 0 g → s'.parses.count g = 1) :=
  (c1_resolve_file_cycle_safe cycEnv false 3 0 initRState cycEnv_wf (by decide)
    stInv_init (by decide)).2.2 rfl cycEnv_noerr rfl

/-- C3: the visited-set test is identity of the shared source file, not
path-string equality — two distinct path strings that the resolver maps to
the same file yield a single parse when both are imported in one run. -/
theorem c3_identity_dedup (env : Env) (p1 p2 : String) (f id sp1 sp2 : Nat)
    (h1 : env.resolvePath p1 = some id) (h2 : env.resolvePath p2 = some id)
    (hne : p1 ≠ p2) (hfid : f ≠ id)
    (hitems : env.items f = [⟨ItemKind.importDir p1, sp1⟩, ⟨ItemKind.importDir p2, sp2⟩])
    (hidItems : env.items id = [])
    (hpf : env.parseOk f = true) (hpid : env.parseOk id = true) :
    resolve_file env false 3 f initRState =
      some (⟨[f, id], [], [f, id], [], 0⟩, Except.ok ()) ∧
    List.count id [f, id] = 1 := by
  have hids : id ≠ f := Ne.symm hfid
  constructor
  · simp [resolve_file, resolveItems, initRState, hitems, hidItems, hpf, hpid, h1, h2, hids]
  · simp [List.count_cons, hids]

/-- An import map making a symbolic path and an absolute path denote the
same underlying file (id 1), both imported from file 0. -/
def aliasEnv : Env where
  numFiles := 2
  items := fun g =>
    if g = 0 then [⟨ItemKind.importDir "pkg/x.sol", 1⟩, ⟨ItemKind.importDir "/abs/x.sol", 2⟩]
    else []
  parseOk := fun _ => true
  parseYulOk := fun _ => true
  resolvePath := fun p =>
    if p = "pkg/x.sol" then some 1 else if p = "/abs/x.sol" then some 1 else none
  stdinFile := none

/-- Witness for C3: both path strings of `aliasEnv` resolve to file 1 and
one run parses it once. -/
theorem c3_identity_dedup_witness :
    resolve_file aliasEnv false 3 0 initRState =
      some (⟨[0, 1], [], [0, 1], [], 0⟩, Except.ok ()) ∧
    List.count 1 [0, 1] = 1 :=
  c3_identity_dedup aliasEnv "pkg/x.sol" "/abs/x.sol" 0 1 1 2 (by decide) (by decide)
    (by decide) (by decide) rfl rfl rfl rfl

/-- Two unrelated single-file entries: file 0 ("a.sol") has a parse error,
file 1 ("b.sol") parses fine. -/
def entEnv : Env where
  numFiles := 2
  items := fun _ => []
  parseOk := fun g => if g = 0 then false else true
  parseYulOk := fun _ => true
  resolvePath := fun p =>
    if p = "a.sol" then some 0 else if p = "b.sol" then some 1 else none
  stdinFile := none

/-- C2 counterexample: with entries `["a.sol", "b.sol"]` where only
"a.sol" has a parse error, the run stops at the first entry — file 1 is
never visited and "b.sol" is never even handed to the resolver, against
the claim that the second entry is still fully resolved. -/
theorem c2_counterexample_sibling_skipped :
    parse_and_resolve entEnv false false 3 ["a.sol", "b.sol"] initRState =
      some (⟨[0], [parseErrDiag 0], [0], [Event.entry "a.sol"], 0⟩, Except.error ()) ∧
    (1 : Nat) ∉ ([0] : List Nat) ∧ Event.entry "b.sol" ∉ [Event.entry "a.sol"] := by
  refine ⟨rfl, by decide, by decide⟩

/-- C2 (amended): a resolution or parse failure of one entry is recorded
as a diagnostic error, but the `?` propagation makes `parse_and_resolve`
return early with `Err`: the remaining sibling entries are not resolved
(no further entry events), and at least one error is recorded. -/
theorem c2_amended_entry_failure_aborts (env : Env) (yul : Bool) (fuel : Nat)
    (p : String) (rest : List String) (s s1 : RState) :
    (env.resolvePath p = none →
      resolveEntries env yul fuel (p :: rest) s =
        some ({ s with events := s.events ++ [Event.entry p],
                       diags := s.diags ++ [entryErrDiag p] }, Except.error ()) ∧
      errCount s <
        errCount { s with events := s.events ++ [Event.entry p],
                          diags := s.diags ++ [entryErrDiag p] }) ∧
    (∀ f, env.resolvePath p = some f →
      resolve_file env yul fuel f { s with events := s.events ++ [Event.entry p] } =
        some (s1, Except.error ()) →
      resolveEntries env yul fuel (p :: rest) s = some (s1, Except.error ()) ∧
      s1.events = s.events ++ [Event.entry p] ∧
      errCount s < errCount s1) := by
  constructor
  · intro hres
    constructor
    · simp only [resolveEntries, hres]
    · obtain ⟨fs, ds, ps, es, n⟩ := s
      simp only [errCount, List.countP_append, entryErrDiag, List.countP_cons, List.countP_nil]
      simp
  · intro f hres hrun
    refine ⟨?_, ?_, ?_⟩
    · simp only [resolveEntries, hres, hrun]
    · exact (resolve_file_basic env yul fuel f _ s1 _ hrun).1.2.2.1
    · have hstep := resolve_file_basic env yul fuel f _ s1 _ hrun
      have h1 := hstep.2 rfl
      have h2 : errCount { s with events := s.events ++ [Event.entry p] } = errCount s := rfl
      omega

/-- Witness for the amended C2 on the concrete two-entry scenario. -/
theorem c2_amended_entry_failure_aborts_witness :
    resolveEntries entEnv false 3 ["a.sol", "b.sol"] initRState =
      some ((⟨[0], [parseErrDiag 0], [0], [Event.entry "a.sol"], 0⟩ : RState),
        Except.error ()) ∧
    (⟨[0], [parseErrDiag 0], [0], [Event.entry "a.sol"], 0⟩ : RState).events =
      initRState.events ++ [Event.entry "a.sol"] ∧
    errCount initRState <
      errCount ⟨[0], [parseErrDiag 0], [0], [Event.entry "a.sol"], 0⟩ :=
  (c2_amended_entry_failure_aborts entEnv false 3 "a.sol" ["b.sol"] initRState
    ⟨[0], [parseErrDiag 0], [0], [Event.entry "a.sol"], 0⟩).2 0 rfl rfl

/-- C6: `_run_compiler` returns `Ok` iff no error was ever recorded in the
diagnostic context: the final `has_errors` gate fails the invocation on
any recorded error even when every file resolved, and every early `Err`
return comes with a recorded error. -/
theorem c6_ok_iff_no_errors (env : Env) (inTest : Bool) (fuel : Nat) (args : Args)
    (s' : RState) (r : Except Unit Unit)
    (h : _run_compiler env inTest fuel args initRState = some (s', r)) :
    r = Except.ok () ↔ errCount s' = 0 := by
  rw [_run_compiler] at h
  by_cases hguard : (args.yulMode && !inTest) = true
  · rw [if_pos hguard] at h
    cases h
    simp [errCount, initRState]
  · rw [if_neg hguard] at h
    simp only [compileAfterGuard] at h
    split at h
    · cases h
      simp [errCount, initRState, dupImportPathDiag]
    · split at h
      · cases h
      · rename_i s1 e hpar
        cases e
        cases h
        have hb := parse_and_resolve_basic _ _ _ _ _ _ _ _ hpar
        have h1 := hb.2 rfl
        have h0 : errCount initRState = 0 := rfl
        constructor
        · intro hr
          exact absurd hr (by simp)
        · intro hc
          omega
      · rename_i s1 u hpar
        by_cases hec : errCount s1 = 0
        · rw [if_pos hec] at h
          cases h
          simp [hec]
        · rw [if_neg hec] at h
          cases h
          constructor
          · intro hr
            exact absurd hr (by simp)
          · intro hc
            exact absurd hc hec

/-- Witness for C6: an invocation with no inputs succeeds and has recorded
no error. -/
theorem c6_ok_iff_no_errors_witness :
    (Except.ok () : Except Unit Unit) = Except.ok () ↔ errCount initRState = 0 :=
  c6_ok_iff_no_errors cycEnv false 1 ⟨false, [], [], []⟩ initRState (Except.ok ()) rfl

/-- Entry events appended by the entry loop: exactly one `entry` event per
processed path, in order, for some leading part of the path list. -/
theorem resolveEntries_events (env : Env) (yul : Bool) (fuel : Nat) :
    ∀ paths s s' r, resolveEntries env yul fuel paths s = some (s', r) →
      ∃ pre, pre <+: paths ∧ s'.events = s.events ++ pre.map Event.entry := by
  intro paths
  induction paths with
  | nil =>
      intro s s' r h
      rw [resolveEntries] at h
      cases h
      exact ⟨[], ⟨[], rfl⟩, by simp⟩
  | cons p rest ih =>
      intro s s' r h
      rw [resolveEntries] at h
      split at h
      · cases h
        exact ⟨[p], ⟨rest, rfl⟩, by simp⟩
      · rename_i f hres
        split at h
        · exact absurd h (by simp)
        · rename_i s1 e hcall
          cases e
          cases h
          have hev := (resolve_file_basic env yul fuel f _ _ _ hcall).1.2.2.1
          refine ⟨[p], ⟨rest, rfl⟩, ?_⟩
          rw [hev]
          simp
        · rename_i s1 u hcall
          have hev := (resolve_file_basic env yul fuel f _ _ _ hcall).1.2.2.1
          obtain ⟨pre, hpre, hevents⟩ := ih s1 s' r h
          refine ⟨p :: pre, ?_, ?_⟩
          · obtain ⟨t, ht⟩ := hpre
            exact ⟨t, by rw [List.cons_append, ht]⟩
          · rw [hevents, hev]
            simp

/-- Event trace of `parse_and_resolve`: one optional leading stdin event,
then entry events for a leading part of the path list. -/
theorem parse_and_resolve_events (env : Env) (yul stdinFlag : Bool) (fuel : Nat)
    (paths : List String) (s s' : RState) (r : Except Unit Unit)
    (h : parse_and_resolve env yul stdinFlag fuel paths s = some (s', r)) :
    ∃ pre, pre <+: paths ∧
      s'.events = s.events ++ (if stdinFlag then [Event.stdin] else []) ++
        pre.map Event.entry := by
  simp only [parse_and_resolve] at h
  by_cases hst : stdinFlag = true
  · rw [if_pos hst] at h
    rw [if_pos hst]
    split at h
    · cases h
      exact ⟨[], ⟨paths, rfl⟩, by simp⟩
    · rename_i f hres
      split at h
      · exact absurd h (by simp)
      · rename_i s1 e hcall
        cases e
        cases h
        have hev := (resolve_file_basic env yul fuel f _ _ _ hcall).1.2.2.1
        refine ⟨[], ⟨paths, rfl⟩, ?_⟩
        rw [hev]
        simp
      · rename_i s1 u hcall
        have hev := (resolve_file_basic env yul fuel f _ _ _ hcall).1.2.2.1
        obtain ⟨pre, hpre, hevents⟩ := resolveEntries_events env yul fuel paths s1 s' r h
        refine ⟨pre, hpre, ?_⟩
        rw [hevents, hev]
  · rw [if_neg hst] at h
    rw [if_neg hst]
    obtain ⟨pre, hpre, hevents⟩ := resolveEntries_events env yul fuel paths s s' r h
    refine ⟨pre, hpre, ?_⟩
    rw [hevents]
    simp

/-- C10: stdin is loaded at most once per invocation and before any entry
path, however many `-` sentinels appear among the inputs, and `-` itself
is never handed to the file resolver as an entry path. -/
theorem c10_stdin_once_and_first (env : Env) (inTest : Bool) (fuel : Nat) (args : Args)
    (s' : RState) (r : Except Unit Unit)
    (h : _run_compiler env inTest fuel args initRState = some (s', r)) :
    List.count Event.stdin s'.events ≤ 1 ∧
    (∀ p, Event.entry p ∈ s'.events → p ≠ "-") ∧
    (∀ l1 l2, s'.events = l1 ++ Event.stdin :: l2 → ∀ p, Event.entry p ∉ l1) := by
  rw [_run_compiler] at h
  have htriv : ∀ t : RState, t.events = ([] : List Event) →
      List.count Event.stdin t.events ≤ 1 ∧
      (∀ p, Event.entry p ∈ t.events → p ≠ "-") ∧
      (∀ l1 l2, t.events = l1 ++ Event.stdin :: l2 → ∀ p, Event.entry p ∉ l1) := by
    intro t ht
    refine ⟨by simp [ht], by simp [ht], ?_⟩
    intro l1 l2 hl p
    rw [ht] at hl
    exact absurd hl.symm (by simp)
  by_cases hguard : (args.yulMode && !inTest) = true
  · rw [if_pos hguard] at h
    cases h
    exact htriv _ rfl
  · rw [if_neg hguard] at h
    simp only [compileAfterGuard] at h
    split at h
    · cases h
      exact htriv _ rfl
    · have hfrom : ∃ s1 r1, parse_and_resolve env args.yulMode
          (args.input.any fun a => a = "-") fuel
          (args.input.filter fun a => a ≠ "-") initRState = some (s1, r1) ∧ s' = s1 := by
        split at h
        · cases h
        · rename_i s1 e hpar
          cases e
          cases h
          exact ⟨_, _, hpar, rfl⟩
        · rename_i s1 u hpar
          by_cases hec : errCount s1 = 0
          · rw [if_pos hec] at h
            cases h
            exact ⟨_, _, hpar, rfl⟩
          · rw [if_neg hec] at h
            cases h
            exact ⟨_, _, hpar, rfl⟩
      obtain ⟨s1, r1, hpar, rfl⟩ := hfrom
      obtain ⟨pre, hpre, hevents⟩ :=
        parse_and_resolve_events _ _ _ _ _ _ _ _ hpar
      have hpresub : ∀ q ∈ pre, q ∈ args.input.filter fun a => a ≠ "-" := hpre.subset
      have hinit : initRState.events = [] := rfl
      rw [hinit, List.nil_append] at hevents
      have hnostdin : Event.stdin ∉ pre.map Event.entry := by
        simp
      refine ⟨?_, ?_, ?_⟩
      · rw [hevents, List.count_append]
        have h2 : List.count Event.stdin (pre.map Event.entry) = 0 :=
          List.count_eq_zero.mpr hnostdin
        by_cases hst : (args.input.any fun a => a = "-") = true
        · rw [if_pos hst]
          simp [h2]
        · rw [if_neg hst]
          simp [h2]
      · intro p hp
        rw [hevents] at hp
        rcases List.mem_append.mp hp with hp | hp
        · by_cases hst : (args.input.any fun a => a = "-") = true
          · rw [if_pos hst] at hp
            simp at hp
          · rw [if_neg hst] at hp
            simp at hp
        · have hmem : p ∈ pre := by
            rcases List.mem_map.mp hp with ⟨q, hq, hqe⟩
            cases hqe
            exact hq
          have := hpresub p hmem
          rw [List.mem_filter] at this
          simpa using this.2
      · intro l1 l2 hl p hpl
        rw [hevents] at hl
        by_cases hst : (args.input.any fun a => a = "-") = true
        · rw [if_pos hst] at hl
          cases l1 with
          | nil => exact absurd hpl (by simp)
          | cons a l1t =>
              rw [List.singleton_append] at hl
              have ha : a = Event.stdin ∧ pre.map Event.entry = l1t ++ Event.stdin :: l2 := by
                have := List.cons.injEq .. ▸ hl
                exact ⟨(List.cons.inj hl).1.symm ▸ rfl, (List.cons.inj hl).2⟩
              have : Event.stdin ∈ pre.map Event.entry := by
                rw [ha.2]
                simp
              exact absurd this hnostdin
        · rw [if_neg hst] at hl
          rw [List.nil_append] at hl
          have : Event.stdin ∈ pre.map Event.entry := by
            rw [hl]
            simp
          exact absurd this hnostdin

/-- Witness for C10: inputs `["-", "a.sol", "-"]` produce one leading
stdin event and one entry event, never an entry for `-`. -/
theorem c10_stdin_once_and_first_witness :
    List.count Event.stdin
      (⟨[0, 1], [], [0, 1], [Event.stdin, Event.entry "a.sol"], 0⟩ : RState).events ≤ 1 ∧
    (∀ p, Event.entry p ∈
      (⟨[0, 1], [], [0, 1], [Event.stdin, Event.entry "a.sol"], 0⟩ : RState).events →
        p ≠ "-") ∧
    (∀ l1 l2,
      (⟨[0, 1], [], [0, 1], [Event.stdin, Event.entry "a.sol"], 0⟩ : RState).events =
          l1 ++ Event.stdin :: l2 →
        ∀ p, Event.entry p ∉ l1) :=
  c10_stdin_once_and_first cycEnv false 3 ⟨false, [], [], ["-", "a.sol", "-"]⟩
    ⟨[0, 1], [], [0, 1], [Event.stdin, Event.entry "a.sol"], 0⟩ (Except.ok ()) rfl
